/-
Verification of the APM coverage tracker's sync pipeline.

Shallow embedding of the core pipeline of the `apm-coverage` repository:
  - `app/services/datadog_client.py` — the remote telemetry gateway
    (catalog pagination, APM service fetch, dependency hints, language
    inference from tags);
  - `app/services/sync_service.py` — the three sync stages
    (`sync_catalog_services`, `sync_apm_coverage`, `analyze_broken_traces`)
    with their SyncJob bookkeeping and commit/rollback points;
  - `app/models.py` — the persisted entities (Service, APMService,
    BrokenTrace, SyncJob).

Conventions of the embedding:
  - timestamps are `Nat` (a `datetime.utcnow()` call site becomes a `now`
    parameter of the invocation being modelled);
  - a remote call that can raise is an `Except String` value supplied as a
    parameter (`.error e` models the Python exception with message `e`);
  - the SQLAlchemy session is modelled by explicit committed states: each
    stage function returns the committed database after the stage, and a
    rollback discards exactly the writes pending since the last commit,
    mirroring the `db.session.commit()` / `db.session.rollback()` call
    sites in the source;
  - the md5 hex digest used for BrokenTrace identifiers is an abstract
    parameter `h : String → String` applied to the same pre-image strings
    as the source builds.
-/

import Mathlib

namespace ApmCoverage

/-! ## Python string helpers

These operate on the character list underlying the string, so that they
reduce by computation inside the kernel (the built-in `String` operations
are position-based and do not). -/

/-- Python `str.lower()` restricted to the ASCII case mapping used here. -/
def pyLower (s : String) : String := String.mk (s.data.map Char.toLower)

/-- Python `str.capitalize()`: first character uppercased, rest lowercased. -/
def pyCapitalize (s : String) : String :=
  match s.data with
  | [] => ""
  | c :: rest => String.mk (c.toUpper :: rest.map Char.toLower)

/-- `pre` is a prefix of the second list. -/
def listIsPrefix : List Char → List Char → Bool
  | [], _ => true
  | _ :: _, [] => false
  | c :: cs, d :: ds => c == d && listIsPrefix cs ds

/-- `pat` occurs as a contiguous sublist. -/
def listOccurs (pat : List Char) : List Char → Bool
  | [] => pat.isEmpty
  | c :: cs => listIsPrefix pat (c :: cs) || listOccurs pat cs

/-- Python `s.startswith(pre)`. -/
def strStartsWith (s pre : String) : Bool := listIsPrefix pre.data s.data

/-- Python `pat in s` substring containment. -/
def strContains (s pat : String) : Bool := listOccurs pat.data s.data

/-- Python `s[n:]` character slicing. -/
def strDrop (s : String) (n : Nat) : String := String.mk (s.data.drop n)

/-! ## Gateway data shapes

`ServiceData` is the dictionary built per catalog entry in
`DatadogClient.get_all_catalog_services` (datadog_client.py lines 53-61);
`ApmData` is the dictionary built per telemetry series in
`DatadogClient.get_apm_services` (lines 157-163; the constant
`has_apm: True` field is omitted since it carries no information). -/

structure ServiceData where
  service_name : String
  tags : List (String × String)
  team : Option String
  environment : Option String
  infrastructure_type : Option String
  is_customer_facing : Bool
  last_seen_catalog : Nat
  deriving DecidableEq, Repr

structure ApmData where
  service_name : String
  apm_language : Option String
  last_seen_apm : Nat
  span_count_24h : Nat
  deriving DecidableEq, Repr

/-! ## Gateway: catalog pagination

`get_all_catalog_services` (datadog_client.py lines 25-78) walks pages of
`list_service_definitions`.  The remote is modelled as the list of its
successive page responses; each response either raises (`.error`) or
returns the page's data.  Per the source loop: an empty page stops with
the accumulator, a short page (fewer than `page_size = 100` items) stops
after appending, a full page appends and continues, and an exception
propagates — discarding everything accumulated so far, exactly as the
Python `raise` abandons the local `services` list. -/

def get_all_catalog_services :
    List (Except String (List ServiceData)) → List ServiceData →
    Except String (List ServiceData)
  | [], acc => .ok acc
  | r :: rest, acc =>
    match r with
    | .error e => .error e
    | .ok pageData =>
      if pageData = [] then .ok acc
      else if pageData.length < 100 then .ok (acc ++ pageData)
      else get_all_catalog_services rest (acc ++ pageData)

/-! ## Gateway: APM services and dependency hints

`get_apm_services` (datadog_client.py lines 80-171) wraps the whole metric
query in `try/except ApiException` and — per the source comment "Don't
raise, return empty list to allow partial sync" — returns the (empty)
accumulated list on failure instead of propagating.  The processing of the
response series into `ApmData` rows is modelled as the response payload.

`get_service_dependencies` (lines 173-232) paginates like the catalog
fetch, but its `except ApiException` clause falls through to
`return dependencies`, so a mid-pagination failure returns the hints
accumulated so far instead of raising.  A raw dependency page entry is a
`(service_name, deps)` pair as produced by the integration/tag scan. -/

def get_apm_services (resp : Except String (List ApmData)) :
    Except String (List ApmData) :=
  match resp with
  | .ok l => .ok l
  | .error _ => .ok []

def get_service_dependencies :
    List (Except String (List (String × List String))) →
    List (String × List String) →
    Except String (List (String × List String))
  | [], acc => .ok acc
  | r :: rest, acc =>
    match r with
    | .error _ => .ok acc
    | .ok pageData =>
      if pageData = [] then .ok acc
      else if pageData.length < 100 then .ok (acc ++ pageData)
      else get_service_dependencies rest (acc ++ pageData)

/-! ## Gateway: language inference

`_extract_language_from_tags` (datadog_client.py lines 329-353). -/

def language_map : List (String × String) :=
  [("python", "Python"), ("java", "Java"), ("go", "Go"),
   ("node", "Node.js"), ("ruby", "Ruby"), ("php", "PHP"),
   ("dotnet", ".NET"), ("cpp", "C++")]

/-- The per-tag body of the source loop: `tag_lower` is already lowercased.
A `language:` prefix returns `language_map.get(lang, lang.capitalize())`;
otherwise the first lexicon key occurring as a substring of the tag (or as
`runtime:<key>`) returns its mapped value; otherwise this tag yields
nothing and the loop moves on. -/
def matchTag (tagLower : String) : Option String :=
  if strStartsWith tagLower "language:" then
    let lang := strDrop tagLower 9
    some ((language_map.lookup lang).getD (pyCapitalize lang))
  else
    (language_map.find? fun kv =>
      strContains tagLower kv.1 || strContains tagLower ("runtime:" ++ kv.1)).map
      Prod.snd

def extract_language_from_tags (tags : List String) : Option String :=
  tags.findSome? fun tag => matchTag (pyLower tag)

/-! ## Coverage store (app/models.py)

Each table is a list of rows in insertion order; `Model.query.filter_by(
...).first()` is `List.find?` and a mutation of the found ORM object is an
in-place replacement of the first matching row (`updateFirst` below).
Auto-increment ids are positions; `nullable` columns are `Option`. -/

structure ServiceRec where
  service_name : String
  tags : List (String × String)
  team : Option String
  environment : Option String
  infrastructure_type : Option String
  is_customer_facing : Bool
  last_seen_catalog : Nat
  created_at : Nat
  updated_at : Nat
  deriving DecidableEq, Repr

structure APMServiceRec where
  service_name : String
  has_apm : Bool
  apm_language : Option String
  last_seen_apm : Option Nat
  span_count_24h : Nat
  created_at : Nat
  updated_at : Nat
  deriving DecidableEq, Repr

structure BrokenTraceRec where
  trace_id : String
  root_service : String
  missing_services : List String
  total_spans : Nat
  missing_span_count : Nat
  analyzed_at : Nat
  deriving DecidableEq, Repr

structure SyncJobRec where
  id : Nat
  job_type : String
  status : String
  started_at : Nat
  completed_at : Option Nat
  services_synced : Nat
  error_message : Option String
  deriving DecidableEq, Repr

structure DB where
  services : List ServiceRec
  apm_services : List APMServiceRec
  broken_traces : List BrokenTraceRec
  sync_jobs : List SyncJobRec
  deriving DecidableEq, Repr

/-- Replace the first row satisfying `p` by `f` of it (an attribute
assignment on the ORM object returned by `.first()`). -/
def updateFirst (p : α → Bool) (f : α → α) : List α → List α
  | [] => []
  | x :: rest => if p x then f x :: rest else x :: updateFirst p f rest

/-! ## Catalog synchronizer (sync_service.py lines 20-69)

`sync_catalog_services` first commits a `running` SyncJob row, then fetches
the catalog.  A fetch failure is rolled back (no substantive write is
pending at that point) and the job row is committed as `failed` with the
error text before the exception propagates.  On success every fetched
definition is upserted by name and the whole sweep plus the `completed`
job update commit. -/

/-- The update branch of the catalog upsert (lines 37-43): overwrite every
mutable field from the fetched definition and bump `updated_at`. -/
def applyServiceData (d : ServiceData) (now : Nat) (r : ServiceRec) : ServiceRec :=
  { r with
    tags := d.tags
    team := d.team
    environment := d.environment
    infrastructure_type := d.infrastructure_type
    is_customer_facing := d.is_customer_facing
    last_seen_catalog := d.last_seen_catalog
    updated_at := now }

/-- The insert branch (line 46): `Service(**service_data)` with column
defaults `created_at = updated_at = utcnow()`. -/
def newServiceRec (d : ServiceData) (now : Nat) : ServiceRec :=
  { service_name := d.service_name
    tags := d.tags
    team := d.team
    environment := d.environment
    infrastructure_type := d.infrastructure_type
    is_customer_facing := d.is_customer_facing
    last_seen_catalog := d.last_seen_catalog
    created_at := now
    updated_at := now }

/-- One iteration of the upsert loop (lines 31-49). -/
def upsertService (now : Nat) (svcs : List ServiceRec) (d : ServiceData) :
    List ServiceRec :=
  match svcs.find? (fun r => r.service_name == d.service_name) with
  | some _ =>
    updateFirst (fun r => r.service_name == d.service_name)
      (applyServiceData d now) svcs
  | none => svcs ++ [newServiceRec d now]

def sync_catalog_services (fetch : Except String (List ServiceData))
    (now : Nat) (db : DB) : Except String Nat × DB :=
  let job : SyncJobRec :=
    { id := db.sync_jobs.length, job_type := "catalog_sync"
      status := "running", started_at := now, completed_at := none
      services_synced := 0, error_message := none }
  match fetch with
  | .ok catalog =>
    let svcs := catalog.foldl (upsertService now) db.services
    let n := catalog.length
    (.ok n,
      { db with
        services := svcs
        sync_jobs := db.sync_jobs ++
          [{ job with
             status := "completed", completed_at := some now,
             services_synced := n }] })
  | .error e =>
    (.error e,
      { db with
        sync_jobs := db.sync_jobs ++
          [{ job with
             status := "failed", completed_at := some now,
             error_message := some e }] })

/-! ## Coverage synchronizer (sync_service.py lines 72-148)

`sync_apm_coverage` fetches the telemetry list, then iterates every known
`Service`.  `next((svc for svc in apm_services if ...), None)` is a first-
match lookup, so the first occurrence wins on duplicate telemetry names.
A service with a matching entry gets its `APMService` row created or
updated with `has_apm = True` and the telemetry attributes; a service with
no matching entry gets its row created or updated with `has_apm = False`.
A raising fetch rolls back (nothing substantive pending) and commits the
`failed` job row before re-raising. -/

/-- One iteration of the reconciliation loop (lines 89-128). -/
def coverageStep (now : Nat) (apmList : List ApmData)
    (rows : List APMServiceRec) (svc : ServiceRec) : List APMServiceRec :=
  let apmData := apmList.find? (fun a => a.service_name == svc.service_name)
  let existing := rows.find? (fun r => r.service_name == svc.service_name)
  match apmData, existing with
  | some d, some _ =>
    updateFirst (fun r => r.service_name == svc.service_name)
      (fun r =>
        { r with
          has_apm := true, apm_language := d.apm_language,
          last_seen_apm := some d.last_seen_apm,
          span_count_24h := d.span_count_24h, updated_at := now }) rows
  | some d, none =>
    rows ++
      [{ service_name := svc.service_name, has_apm := true
         apm_language := d.apm_language
         last_seen_apm := some d.last_seen_apm
         span_count_24h := d.span_count_24h
         created_at := now, updated_at := now }]
  | none, some _ =>
    updateFirst (fun r => r.service_name == svc.service_name)
      (fun r => { r with has_apm := false, updated_at := now }) rows
  | none, none =>
    rows ++
      [{ service_name := svc.service_name, has_apm := false
         apm_language := none, last_seen_apm := none, span_count_24h := 0
         created_at := now, updated_at := now }]

def sync_apm_coverage (fetch : Except String (List ApmData))
    (now : Nat) (db : DB) : Except String Nat × DB :=
  let job : SyncJobRec :=
    { id := db.sync_jobs.length, job_type := "apm_sync"
      status := "running", started_at := now, completed_at := none
      services_synced := 0, error_message := none }
  match fetch with
  | .ok apmList =>
    let rows := db.services.foldl (coverageStep now apmList) db.apm_services
    let n := db.services.length
    (.ok n,
      { db with
        apm_services := rows
        sync_jobs := db.sync_jobs ++
          [{ job with
             status := "completed", completed_at := some now,
             services_synced := n }] })
  | .error e =>
    (.error e,
      { db with
        sync_jobs := db.sync_jobs ++
          [{ job with
             status := "failed", completed_at := some now,
             error_message := some e }] })

/-! ## Broken-trace analyzer (sync_service.py lines 151-276)

`analyze_broken_traces(sample_size)` commits a `running` job, acquires the
gateway client (the one raising step before any substantive write; modelled
by the `clientOk` parameter — e.g. a missing config key raises there),
partitions services by `has_apm`, deletes and commits away all prior
`BrokenTrace` rows, runs the priority heuristic, then the dependency
heuristic whose hint fetch failure is swallowed (`except` at line 255), and
commits the new candidates plus the `completed` job row.

The md5 hex digest is the abstract parameter `h`; `today` is the
`datetime.utcnow().date()` string interpolated into the digest pre-image. -/

/-- The high-value domain list (line 201). -/
def high_value_domains : List String :=
  ["experiences", "platform", "payments", "booking"]

/-- Python `dict.get` on the service's tag mapping. -/
def tagsGet (tags : List (String × String)) (key : String) : Option String :=
  (tags.find? fun kv => kv.1 == key).map Prod.snd

/-- The `reasons` computation (lines 192-203) reduced to its emptiness
test: a candidate is emitted iff at least one reason fires. -/
def qualifies (s : ServiceRec) : Bool :=
  s.is_customer_facing
    || tagsGet s.tags "critical_flow" == some "true"
    || high_value_domains.contains (pyLower ((tagsGet s.tags "domain").getD ""))

/-- The single-participant candidate of the priority heuristic
(lines 207-218): `trace_id = md5("<name>-<date>")`. -/
def mkPriorityTrace (h : String → String) (today : String) (now : Nat)
    (s : ServiceRec) : BrokenTraceRec :=
  { trace_id := h (s.service_name ++ "-" ++ today)
    root_service := s.service_name
    missing_services := [s.service_name]
    total_spans := 1
    missing_span_count := 1
    analyzed_at := now }

/-- Strategy 1 loop (lines 186-221): `n` is `traces_created`, `acc` the
pending `BrokenTrace` inserts; the loop breaks once `n` reaches the cap. -/
def priorityPass (h : String → String) (today : String) (now : Nat)
    (cap : Nat) : List ServiceRec → Nat → List BrokenTraceRec →
    Nat × List BrokenTraceRec
  | [], n, acc => (n, acc)
  | s :: rest, n, acc =>
    if cap ≤ n then (n, acc)
    else if qualifies s then
      priorityPass h today now cap rest (n + 1) (acc ++ [mkPriorityTrace h today now s])
    else
      priorityPass h today now cap rest n acc

/-- The multi-participant candidate of the dependency heuristic
(lines 240-250): `trace_id = md5("dep-<name>-<date>")`. -/
def mkDepTrace (h : String → String) (today : String) (now : Nat)
    (name : String) (deps missing : List String) : BrokenTraceRec :=
  { trace_id := h ("dep-" ++ name ++ "-" ++ today)
    root_service := name
    missing_services := missing
    total_spans := deps.length + 1
    missing_span_count := missing.length
    analyzed_at := now }

/-- Strategy 2 loop (lines 231-253), continuing the shared `traces_created`
counter from strategy 1. -/
def depPass (h : String → String) (today : String) (now : Nat) (cap : Nat)
    (withApm withoutApm : List String) :
    List (String × List String) → Nat → List BrokenTraceRec →
    Nat × List BrokenTraceRec
  | [], n, acc => (n, acc)
  | (name, deps) :: rest, n, acc =>
    if cap ≤ n then (n, acc)
    else if withApm.contains name then
      let missing := deps.filter (fun d => withoutApm.contains d)
      if missing.isEmpty then
        depPass h today now cap withApm withoutApm rest n acc
      else
        depPass h today now cap withApm withoutApm rest (n + 1)
          (acc ++ [mkDepTrace h today now name deps missing])
    else
      depPass h today now cap withApm withoutApm rest n acc

/-- The instrumented-service name set of the analyzer
(sync_service.py line 169). -/
def servicesWithApm (db : DB) : List String :=
  (db.apm_services.filter fun r => r.has_apm).map APMServiceRec.service_name

/-- The uninstrumented-service name set (line 170). -/
def servicesWithoutApm (db : DB) : List String :=
  (db.apm_services.filter fun r => !r.has_apm).map APMServiceRec.service_name

/-- The priority heuristic's query (lines 182-184): every Service row
whose name is in the uninstrumented set, in table order. -/
def priorityPool (db : DB) : List ServiceRec :=
  db.services.filter fun s => (servicesWithoutApm db).contains s.service_name

def analyze_broken_traces (h : String → String)
    (clientOk : Except String Unit)
    (depsFetch : Except String (List (String × List String)))
    (cap : Nat) (now : Nat) (today : String) (db : DB) :
    Except String Nat × DB :=
  let job : SyncJobRec :=
    { id := db.sync_jobs.length, job_type := "trace_analysis"
      status := "running", started_at := now, completed_at := none
      services_synced := 0, error_message := none }
  match clientOk with
  | .ok _ =>
    let withApm := servicesWithApm db
    let withoutApm := servicesWithoutApm db
    let priorityServices := priorityPool db
    let r1 := priorityPass h today now cap priorityServices 0 []
    -- `import hashlib` (line 208) sits inside strategy 1's emission branch,
    -- so `hashlib` is a function-local name bound only when the priority
    -- pass created at least one candidate.  With zero priority candidates
    -- the first strategy-2 emission attempt (line 241) raises
    -- UnboundLocalError, which the `except Exception` at line 255 swallows,
    -- aborting strategy 2 with nothing emitted; entries that never reach an
    -- emission also emit nothing, so the observable result is `r1` exactly
    -- when `r1.1 = 0`.
    let r2 :=
      match depsFetch with
      | .error _ => r1
      | .ok hints =>
        if r1.1 = 0 then r1
        else depPass h today now cap withApm withoutApm hints r1.1 r1.2
    (.ok r2.1,
      { db with
        broken_traces := r2.2
        sync_jobs := db.sync_jobs ++
          [{ job with
             status := "completed", completed_at := some now,
             services_synced := r2.1 }] })
  | .error e =>
    (.error e,
      { db with
        sync_jobs := db.sync_jobs ++
          [{ job with
             status := "failed", completed_at := some now,
             error_message := some e }] })

/-- The SyncJob row as committed by the `except` handler of a stage
(sync_service.py lines 62-67, 141-146, 269-274): status `failed`,
completion timestamp, error text; the `running` row committed at stage
start is mutated in place, so the log keeps exactly one row per stage run. -/
def failedJob (jobType : String) (idx now : Nat) (e : String) : SyncJobRec :=
  { id := idx, job_type := jobType, status := "failed", started_at := now
    completed_at := some now, services_synced := 0, error_message := some e }

/-! ## Derived views and fixtures used by the theorems -/

/-- A lowercased tag produces a language in the source loop iff it starts
with `language:` or contains a lexicon key (or `runtime:<key>`, which is
subsumed) as a substring. -/
def tagMatches (t : String) : Bool :=
  strStartsWith t "language:" ||
    language_map.any fun kv =>
      strContains t kv.1 || strContains t ("runtime:" ++ kv.1)

/-- A concrete catalog entry for witnesses. -/
def sampleServiceData : ServiceData :=
  { service_name := "checkout", tags := [("team", "payments")]
    team := some "payments", environment := some "prod"
    infrastructure_type := some "EKS", is_customer_facing := true
    last_seen_catalog := 7 }

/-- A minimal Service row fixture. -/
def svcRec (name : String) (cf : Bool) : ServiceRec :=
  { service_name := name, tags := [], team := none, environment := none
    infrastructure_type := none, is_customer_facing := cf
    last_seen_catalog := 0, created_at := 0, updated_at := 0 }

/-- A minimal APMService row fixture. -/
def apmRec (name : String) (b : Bool) : APMServiceRec :=
  { service_name := name, has_apm := b, apm_language := none
    last_seen_apm := none, span_count_24h := 0, created_at := 0
    updated_at := 0 }

/-- The count and candidate list produced by a successful analyzer run:
the shared-counter composition of the two heuristic passes, where a hint
fetch failure degrades to the priority results alone, and so does a run
whose priority pass emitted nothing — the function-local `hashlib` import
(line 208) is then unbound at line 241 and the swallowed UnboundLocalError
aborts strategy 2 before any emission. -/
def analyzerOutput (h : String → String) (today : String) (now cap : Nat)
    (depsFetch : Except String (List (String × List String))) (db : DB) :
    Nat × List BrokenTraceRec :=
  match depsFetch with
  | .error _ => priorityPass h today now cap (priorityPool db) 0 []
  | .ok hints =>
    if (priorityPass h today now cap (priorityPool db) 0 []).1 = 0 then
      priorityPass h today now cap (priorityPool db) 0 []
    else
      depPass h today now cap (servicesWithApm db) (servicesWithoutApm db)
        hints (priorityPass h today now cap (priorityPool db) 0 []).1
        (priorityPass h today now cap (priorityPool db) 0 []).2

/-- The SyncJob row committed when the analyzer completes. -/
def completedAnalysisJob (idx now n : Nat) : SyncJobRec :=
  { id := idx, job_type := "trace_analysis", status := "completed"
    started_at := now, completed_at := some now, services_synced := n
    error_message := none }

/-- A Service row with every mutable catalog field projected out of the
`updated_at` timestamp (used to state idempotence up to `updated_at`). -/
def eraseUpdatedAt (r : ServiceRec) : ServiceRec := { r with updated_at := 0 }

/-- The Service row carries exactly the mutable fields of a fetched
catalog definition. -/
def reflects (r : ServiceRec) (d : ServiceData) : Prop :=
  r.service_name = d.service_name ∧ r.tags = d.tags ∧ r.team = d.team ∧
  r.environment = d.environment ∧
  r.infrastructure_type = d.infrastructure_type ∧
  r.is_customer_facing = d.is_customer_facing ∧
  r.last_seen_catalog = d.last_seen_catalog

/-- A second concrete catalog entry for witnesses. -/
def sampleServiceData2 : ServiceData :=
  { service_name := "search", tags := [("domain", "experiences")]
    team := none, environment := some "prod"
    infrastructure_type := some "ECS", is_customer_facing := false
    last_seen_catalog := 8 }

/-- Witness database for C1: one catalog service whose APMService row
currently says instrumented. -/
def dbC1 : DB :=
  { services := [svcRec "alpha" false]
    apm_services := [apmRec "alpha" true]
    broken_traces := [], sync_jobs := [] }

/-- Witness database for C3: five customer-facing services, all known to
be uninstrumented. -/
def dbC3 : DB :=
  { services := [svcRec "a" true, svcRec "b" true, svcRec "c" true,
                 svcRec "d" true, svcRec "e" true]
    apm_services := [apmRec "a" false, apmRec "b" false, apmRec "c" false,
                     apmRec "d" false, apmRec "e" false]
    broken_traces := [], sync_jobs := [] }

/-- Witness database for C6: A is uninstrumented and customer-facing, B is
instrumented. -/
def dbC6 : DB :=
  { services := [svcRec "A" true, svcRec "B" false]
    apm_services := [apmRec "A" false, apmRec "B" true]
    broken_traces := [], sync_jobs := [] }

/-- Failing-input database for C6: A is uninstrumented with no risk
reason, B is instrumented, so the priority pass emits nothing and the
unbound `hashlib` aborts the dependency pass. -/
def dbC6bug : DB :=
  { services := [svcRec "A" false, svcRec "B" false]
    apm_services := [apmRec "A" false, apmRec "B" true]
    broken_traces := [], sync_jobs := [] }

/-- Witness database for C10: `ghost` has a catalog row but no APMService
row; `b` is known uninstrumented. -/
def dbC10 : DB :=
  { services := [svcRec "ghost" true, svcRec "b" true]
    apm_services := [apmRec "b" false]
    broken_traces := [], sync_jobs := [] }

/-! ## C8: the failure marker is not transactional with the stage's work -/

/-- C8: for each of the three sync stages, when the stage's body raises,
the substantive tables (`services`, `apm_services`, `broken_traces`) are
exactly as before the stage — the pending writes rolled back — yet the
stage's SyncJob row is committed with status `failed`, a completion
timestamp, and the error message, and the error propagates. -/
theorem failed_syncrun_marker_commits (e : String) (now cap : Nat) (db : DB)
    (dig : String → String) (today : String)
    (depsFetch : Except String (List (String × List String))) :
    sync_catalog_services (.error e) now db =
      (.error e, { db with sync_jobs :=
        db.sync_jobs ++ [failedJob "catalog_sync" db.sync_jobs.length now e] }) ∧
    sync_apm_coverage (.error e) now db =
      (.error e, { db with sync_jobs :=
        db.sync_jobs ++ [failedJob "apm_sync" db.sync_jobs.length now e] }) ∧
    analyze_broken_traces dig (.error e) depsFetch cap now today db =
      (.error e, { db with sync_jobs :=
        db.sync_jobs ++ [failedJob "trace_analysis" db.sync_jobs.length now e] }) :=
  ⟨rfl, rfl, rfl⟩

/-! ## C5: error behavior of the three gateway operations

The claim says all three operations raise on transport/auth failure.  The
source contradicts it: only `get_all_catalog_services` re-raises its
`ApiException` (datadog_client.py line 76); `get_apm_services` swallows it
("Don't raise, return empty list to allow partial sync", line 169) and
`get_service_dependencies` swallows it and returns the hints accumulated
so far (line 230 falls through to `return dependencies`). -/

/-- C5 counterexample: on a transport failure, `get_apm_services` and
`get_service_dependencies` return successfully (with empty results)
instead of raising as the claim requires. -/
theorem gateway_swallows_telemetry_errors :
    get_apm_services (.error "transport failure") = .ok [] ∧
    get_service_dependencies [.error "transport failure"] [] = .ok [] :=
  ⟨rfl, rfl⟩

/-- C5 amended: `fetchCatalog` raises the remote error to its caller on
transport/auth failure, while `fetchInstrumentedServices` and
`fetchDependencyHints` swallow such failures and return the (possibly
empty) results accumulated so far; none of the three raises when the
remote returns zero results — an empty catalog or empty telemetry window
comes back as an empty sequence. -/
theorem gateway_error_propagation_amended (e : String)
    (rest : List (Except String (List ServiceData)))
    (restD : List (Except String (List (String × List String))))
    (accS : List ServiceData) (accD : List (String × List String)) :
    get_all_catalog_services (.error e :: rest) accS = .error e ∧
    get_all_catalog_services (.ok [] :: rest) accS = .ok accS ∧
    get_apm_services (.error e) = .ok [] ∧
    get_apm_services (.ok []) = .ok [] ∧
    get_service_dependencies (.error e :: restD) accD = .ok accD ∧
    get_service_dependencies (.ok [] :: restD) accD = .ok accD :=
  ⟨rfl, rfl, rfl, rfl, rfl, rfl⟩

/-! ## C2: a mid-pagination catalog failure is atomic per run -/

/-- C2: if the paginated catalog fetch raises — on any page, in particular
mid-way through a multi-page walk — then `sync_catalog_services` retains
zero Service rows from the pages already fetched (the `services` table is
exactly the pre-run table), records the run's SyncJob as failed with the
error text, and propagates the error to the caller. -/
theorem catalog_fetch_error_atomicity
    (resps : List (Except String (List ServiceData)))
    (e : String) (now : Nat) (db : DB)
    (hfetch : get_all_catalog_services resps [] = .error e) :
    sync_catalog_services (get_all_catalog_services resps []) now db =
      (.error e, { db with sync_jobs :=
        db.sync_jobs ++ [failedJob "catalog_sync" db.sync_jobs.length now e] }) := by
  rw [hfetch]
  rfl

/-- C2 witness: pages 1 and 2 come back full (100 definitions each), page
3 raises; the sync returns the error and the pre-run database plus the
failed SyncJob row. -/
theorem catalog_fetch_error_atomicity_witness :
    sync_catalog_services
      (get_all_catalog_services
        [.ok (List.replicate 100 sampleServiceData),
         .ok (List.replicate 100 sampleServiceData),
         .error "gateway down"] []) 3
      { services := [], apm_services := [], broken_traces := [], sync_jobs := [] } =
      (.error "gateway down",
        { services := [], apm_services := [], broken_traces := []
          sync_jobs := [failedJob "catalog_sync" 0 3 "gateway down"] }) :=
  catalog_fetch_error_atomicity
    [.ok (List.replicate 100 sampleServiceData),
     .ok (List.replicate 100 sampleServiceData),
     .error "gateway down"] "gateway down" 3
    { services := [], apm_services := [], broken_traces := [], sync_jobs := [] }
    (by rfl)

/-! ## C9: language inference from tags -/

theorem matchTag_eq_none_iff (t : String) :
    matchTag t = none ↔ tagMatches t = false := by
  unfold matchTag tagMatches
  by_cases hp : strStartsWith t "language:"
  · simp [hp]
  · simp [hp, Option.map_eq_none', List.find?_eq_none, List.any_eq_true]

theorem matchTag_isSome_of (t : String) (h : tagMatches t = true) :
    ∃ v, matchTag t = some v := by
  rcases hm : matchTag t with _ | v
  · rw [matchTag_eq_none_iff] at hm
    simp [hm] at h
  · exact ⟨v, rfl⟩

/-- C9: the gateway's language inference scans the tags in order; a tag
decides via a prefix match on `language:` first and otherwise via the
first substring match against the fixed lexicon; the first matching tag
wins (later tags are ignored); and if no tag matches at all the result is
null. -/
theorem language_inference_spec (pre : List String) (tag : String)
    (post : List String)
    (hpre : ∀ t ∈ pre, tagMatches (pyLower t) = false)
    (hmatch : tagMatches (pyLower tag) = true) :
    extract_language_from_tags (pre ++ tag :: post) = matchTag (pyLower tag) ∧
    matchTag (pyLower tag) ≠ none ∧
    extract_language_from_tags pre = none ∧
    (strStartsWith (pyLower tag) "language:" = true →
      matchTag (pyLower tag) =
        some ((language_map.lookup (strDrop (pyLower tag) 9)).getD
          (pyCapitalize (strDrop (pyLower tag) 9)))) := by
  obtain ⟨v, hv⟩ := matchTag_isSome_of _ hmatch
  have hprenone : extract_language_from_tags pre = none := by
    rw [extract_language_from_tags, List.findSome?_eq_none_iff]
    intro t ht
    rw [matchTag_eq_none_iff]
    exact hpre t ht
  refine ⟨?_, by simp [hv], hprenone, fun hlang => by simp [matchTag, hlang]⟩
  rw [extract_language_from_tags, List.findSome?_append]
  rw [extract_language_from_tags] at hprenone
  simp [hprenone, List.findSome?_cons, hv]

/-- C9 witness: `team:search` matches nothing, `language:rust` decides by
the prefix rule (and, being outside the lexicon, capitalizes). -/
theorem language_inference_spec_witness :
    extract_language_from_tags ["team:search", "language:rust"] = some "Rust" := by
  have hres :=
    language_inference_spec ["team:search"] "language:rust" []
      (by decide) (by decide)
  rw [show (["team:search", "language:rust"] : List String) =
        ["team:search"] ++ ["language:rust"] from rfl,
      hres.1]
  rfl

/-! ## Loop invariants of the analyzer passes -/

theorem priorityPass_break (h : String → String) (today : String)
    (now cap : Nat) (l : List ServiceRec) (n : Nat)
    (acc : List BrokenTraceRec) (hcap : cap ≤ n) :
    priorityPass h today now cap l n acc = (n, acc) := by
  cases l with
  | nil => rfl
  | cons s rest => simp [priorityPass, hcap]

theorem priorityPass_mono (h : String → String) (today : String)
    (now cap : Nat) (l : List ServiceRec) (n : Nat)
    (acc : List BrokenTraceRec) :
    n ≤ (priorityPass h today now cap l n acc).1 := by
  induction l generalizing n acc with
  | nil => simp [priorityPass]
  | cons s rest ih =>
    by_cases hcap : cap ≤ n
    · simp [priorityPass, hcap]
    · by_cases hq : qualifies s
      · simp only [priorityPass, if_neg hcap, if_pos hq]
        exact le_trans (Nat.le_succ n) (ih _ _)
      · simp only [priorityPass, if_neg hcap, if_neg hq]
        exact ih _ _

theorem priorityPass_count (h : String → String) (today : String)
    (now cap : Nat) (l : List ServiceRec) (n : Nat)
    (acc : List BrokenTraceRec) (hn : n ≤ cap) :
    (priorityPass h today now cap l n acc).1 =
      min cap (n + l.countP fun s => qualifies s) := by
  induction l generalizing n acc with
  | nil => simp [priorityPass, Nat.min_eq_right hn]
  | cons s rest ih =>
    by_cases hcap : cap ≤ n
    · have hn' : n = cap := Nat.le_antisymm hn hcap
      subst hn'
      simp [priorityPass_break h today now n _ _ _ (le_refl n)]
    · have hlt : n < cap := Nat.lt_of_le_of_ne hn (fun he => hcap (le_of_eq he.symm))
      by_cases hq : qualifies s
      · simp only [priorityPass, if_neg hcap, if_pos hq]
        rw [ih _ _ hlt, List.countP_cons, hq]
        simp [Nat.add_comm, Nat.add_assoc, Nat.add_left_comm]
      · simp only [priorityPass, if_neg hcap, if_neg hq]
        rw [ih _ _ hn, List.countP_cons]
        simp [hq]

theorem priorityPass_len (h : String → String) (today : String)
    (now cap : Nat) (l : List ServiceRec) (n : Nat)
    (acc : List BrokenTraceRec) :
    (priorityPass h today now cap l n acc).2.length + n =
      (priorityPass h today now cap l n acc).1 + acc.length := by
  induction l generalizing n acc with
  | nil => simp [priorityPass, Nat.add_comm]
  | cons s rest ih =>
    by_cases hcap : cap ≤ n
    · simp [priorityPass, hcap, Nat.add_comm]
    · by_cases hq : qualifies s
      · simp only [priorityPass, if_neg hcap, if_pos hq]
        have := ih (n + 1) (acc ++ [mkPriorityTrace h today now s])
        simp only [List.length_append, List.length_cons, List.length_nil] at this
        omega
      · simp only [priorityPass, if_neg hcap, if_neg hq]
        exact ih _ _

theorem priorityPass_acc_mem (h : String → String) (today : String)
    (now cap : Nat) (l : List ServiceRec) (n : Nat)
    (acc : List BrokenTraceRec) (c : BrokenTraceRec) (hc : c ∈ acc) :
    c ∈ (priorityPass h today now cap l n acc).2 := by
  induction l generalizing n acc with
  | nil => simpa [priorityPass]
  | cons s rest ih =>
    by_cases hcap : cap ≤ n
    · simpa [priorityPass, hcap]
    · by_cases hq : qualifies s
      · simp only [priorityPass, if_neg hcap, if_pos hq]
        exact ih _ _ (List.mem_append_left _ hc)
      · simp only [priorityPass, if_neg hcap, if_neg hq]
        exact ih _ _ hc

theorem priorityPass_mem_spec (h : String → String) (today : String)
    (now cap : Nat) (l : List ServiceRec) (n : Nat)
    (acc : List BrokenTraceRec) (c : BrokenTraceRec)
    (hc : c ∈ (priorityPass h today now cap l n acc).2) :
    c ∈ acc ∨ ∃ s ∈ l, qualifies s = true ∧ c = mkPriorityTrace h today now s := by
  induction l generalizing n acc with
  | nil => simp [priorityPass] at hc; exact Or.inl hc
  | cons s rest ih =>
    by_cases hcap : cap ≤ n
    · simp [priorityPass, hcap] at hc
      exact Or.inl hc
    · by_cases hq : qualifies s
      · simp only [priorityPass, if_neg hcap, if_pos hq] at hc
        rcases ih _ _ hc with hin | ⟨s', hs', hq', he⟩
        · rcases List.mem_append.mp hin with hin | hin
          · exact Or.inl hin
          · simp only [List.mem_singleton] at hin
            exact Or.inr ⟨s, List.mem_cons_self s rest, hq, hin⟩
        · exact Or.inr ⟨s', List.mem_cons_of_mem s hs', hq', he⟩
      · simp only [priorityPass, if_neg hcap, if_neg hq] at hc
        rcases ih _ _ hc with hin | ⟨s', hs', hq', he⟩
        · exact Or.inl hin
        · exact Or.inr ⟨s', List.mem_cons_of_mem s hs', hq', he⟩

theorem priorityPass_complete (h : String → String) (today : String)
    (now cap : Nat) (l : List ServiceRec) (n : Nat)
    (acc : List BrokenTraceRec)
    (hres : (priorityPass h today now cap l n acc).1 < cap) :
    ∀ s ∈ l, qualifies s = true →
      mkPriorityTrace h today now s ∈ (priorityPass h today now cap l n acc).2 := by
  induction l generalizing n acc with
  | nil => simp
  | cons s0 rest ih =>
    intro s hs hq
    by_cases hcap : cap ≤ n
    · rw [priorityPass_break h today now cap _ _ _ hcap] at hres
      omega
    · rcases List.mem_cons.mp hs with he | hmem
      · subst he
        simp only [priorityPass, if_neg hcap, if_pos hq] at hres ⊢
        exact priorityPass_acc_mem h today now cap rest (n + 1) _ _
          (List.mem_append_right _ (List.mem_singleton.mpr rfl))
      · by_cases hq0 : qualifies s0
        · simp only [priorityPass, if_neg hcap, if_pos hq0] at hres ⊢
          exact ih _ _ hres s hmem hq
        · simp only [priorityPass, if_neg hcap, if_neg hq0] at hres ⊢
          exact ih _ _ hres s hmem hq

theorem depPass_break (h : String → String) (today : String)
    (now cap : Nat) (wA wO : List String)
    (l : List (String × List String)) (n : Nat)
    (acc : List BrokenTraceRec) (hcap : cap ≤ n) :
    depPass h today now cap wA wO l n acc = (n, acc) := by
  cases l with
  | nil => rfl
  | cons p rest =>
    obtain ⟨name, deps⟩ := p
    simp [depPass, hcap]

theorem depPass_mono (h : String → String) (today : String)
    (now cap : Nat) (wA wO : List String)
    (l : List (String × List String)) (n : Nat)
    (acc : List BrokenTraceRec) :
    n ≤ (depPass h today now cap wA wO l n acc).1 := by
  induction l generalizing n acc with
  | nil => simp [depPass]
  | cons p rest ih =>
    obtain ⟨name, deps⟩ := p
    by_cases hcap : cap ≤ n
    · simp [depPass, hcap]
    · by_cases hw : wA.contains name
      · by_cases hm : (deps.filter fun d => wO.contains d).isEmpty
        · simp only [depPass, if_neg hcap, if_pos hw, if_pos hm]
          exact ih _ _
        · simp only [depPass, if_neg hcap, if_pos hw, if_neg hm]
          exact le_trans (Nat.le_succ n) (ih _ _)
      · simp only [depPass, if_neg hcap, if_neg hw]
        exact ih _ _

theorem depPass_le_cap (h : String → String) (today : String)
    (now cap : Nat) (wA wO : List String)
    (l : List (String × List String)) (n : Nat)
    (acc : List BrokenTraceRec) (hn : n ≤ cap) :
    (depPass h today now cap wA wO l n acc).1 ≤ cap := by
  induction l generalizing n acc with
  | nil => simpa [depPass]
  | cons p rest ih =>
    obtain ⟨name, deps⟩ := p
    by_cases hcap : cap ≤ n
    · simpa [depPass, hcap]
    · have hlt : n < cap := Nat.lt_of_le_of_ne hn (fun he => hcap (le_of_eq he.symm))
      by_cases hw : wA.contains name
      · by_cases hm : (deps.filter fun d => wO.contains d).isEmpty
        · simp only [depPass, if_neg hcap, if_pos hw, if_pos hm]
          exact ih _ _ hn
        · simp only [depPass, if_neg hcap, if_pos hw, if_neg hm]
          exact ih _ _ hlt
      · simp only [depPass, if_neg hcap, if_neg hw]
        exact ih _ _ hn

theorem depPass_len (h : String → String) (today : String)
    (now cap : Nat) (wA wO : List String)
    (l : List (String × List String)) (n : Nat)
    (acc : List BrokenTraceRec) :
    (depPass h today now cap wA wO l n acc).2.length + n =
      (depPass h today now cap wA wO l n acc).1 + acc.length := by
  induction l generalizing n acc with
  | nil => simp [depPass, Nat.add_comm]
  | cons p rest ih =>
    obtain ⟨name, deps⟩ := p
    by_cases hcap : cap ≤ n
    · simp [depPass, hcap, Nat.add_comm]
    · by_cases hw : wA.contains name
      · by_cases hm : (deps.filter fun d => wO.contains d).isEmpty
        · simp only [depPass, if_neg hcap, if_pos hw, if_pos hm]
          exact ih _ _
        · simp only [depPass, if_neg hcap, if_pos hw, if_neg hm]
          have := ih (n + 1)
            (acc ++ [mkDepTrace h today now name deps
              (deps.filter fun d => wO.contains d)])
          simp only [List.length_append, List.length_cons, List.length_nil] at this
          omega
      · simp only [depPass, if_neg hcap, if_neg hw]
        exact ih _ _

theorem depPass_acc_mem (h : String → String) (today : String)
    (now cap : Nat) (wA wO : List String)
    (l : List (String × List String)) (n : Nat)
    (acc : List BrokenTraceRec) (c : BrokenTraceRec) (hc : c ∈ acc) :
    c ∈ (depPass h today now cap wA wO l n acc).2 := by
  induction l generalizing n acc with
  | nil => simpa [depPass]
  | cons p rest ih =>
    obtain ⟨name, deps⟩ := p
    by_cases hcap : cap ≤ n
    · simpa [depPass, hcap]
    · by_cases hw : wA.contains name
      · by_cases hm : (deps.filter fun d => wO.contains d).isEmpty
        · simp only [depPass, if_neg hcap, if_pos hw, if_pos hm]
          exact ih _ _ hc
        · simp only [depPass, if_neg hcap, if_pos hw, if_neg hm]
          exact ih _ _ (List.mem_append_left _ hc)
      · simp only [depPass, if_neg hcap, if_neg hw]
        exact ih _ _ hc

theorem depPass_mem_spec (h : String → String) (today : String)
    (now cap : Nat) (wA wO : List String)
    (l : List (String × List String)) (n : Nat)
    (acc : List BrokenTraceRec) (c : BrokenTraceRec)
    (hc : c ∈ (depPass h today now cap wA wO l n acc).2) :
    c ∈ acc ∨ ∃ p ∈ l, wA.contains p.1 = true ∧
      (p.2.filter fun d => wO.contains d) ≠ [] ∧
      c = mkDepTrace h today now p.1 p.2 (p.2.filter fun d => wO.contains d) := by
  induction l generalizing n acc with
  | nil => simp [depPass] at hc; exact Or.inl hc
  | cons p rest ih =>
    obtain ⟨name, deps⟩ := p
    by_cases hcap : cap ≤ n
    · simp [depPass, hcap] at hc
      exact Or.inl hc
    · by_cases hw : wA.contains name
      · by_cases hm : (deps.filter fun d => wO.contains d).isEmpty
        · simp only [depPass, if_neg hcap, if_pos hw, if_pos hm] at hc
          rcases ih _ _ hc with hin | ⟨p', hp', hrest⟩
          · exact Or.inl hin
          · exact Or.inr ⟨p', List.mem_cons_of_mem _ hp', hrest⟩
        · simp only [depPass, if_neg hcap, if_pos hw, if_neg hm] at hc
          rcases ih _ _ hc with hin | ⟨p', hp', hrest⟩
          · rcases List.mem_append.mp hin with hin | hin
            · exact Or.inl hin
            · simp only [List.mem_singleton] at hin
              refine Or.inr ⟨(name, deps), List.mem_cons_self _ _, hw, ?_, hin⟩
              simpa [List.isEmpty_iff] using hm
          · exact Or.inr ⟨p', List.mem_cons_of_mem _ hp', hrest⟩
      · simp only [depPass, if_neg hcap, if_neg hw] at hc
        rcases ih _ _ hc with hin | ⟨p', hp', hrest⟩
        · exact Or.inl hin
        · exact Or.inr ⟨p', List.mem_cons_of_mem _ hp', hrest⟩

theorem depPass_complete (h : String → String) (today : String)
    (now cap : Nat) (wA wO : List String)
    (l : List (String × List String)) (n : Nat)
    (acc : List BrokenTraceRec)
    (hres : (depPass h today now cap wA wO l n acc).1 < cap) :
    ∀ p ∈ l, wA.contains p.1 = true →
      (p.2.filter fun d => wO.contains d) ≠ [] →
      mkDepTrace h today now p.1 p.2 (p.2.filter fun d => wO.contains d) ∈
        (depPass h today now cap wA wO l n acc).2 := by
  induction l generalizing n acc with
  | nil => simp
  | cons p0 rest ih =>
    intro p hp hw hmne
    obtain ⟨name, deps⟩ := p
    obtain ⟨name0, deps0⟩ := p0
    by_cases hcap : cap ≤ n
    · rw [depPass_break h today now cap wA wO _ _ _ hcap] at hres
      omega
    · rcases List.mem_cons.mp hp with he | hmem
      · rw [Prod.mk.injEq] at he
        obtain ⟨he1, he2⟩ := he
        subst he1
        subst he2
        have hm : ((deps.filter fun d => wO.contains d).isEmpty) = false := by
          rcases hfe : deps.filter fun d => wO.contains d with _ | ⟨x, xs⟩
          · exact absurd hfe hmne
          · rfl
        simp only [depPass, if_neg hcap, if_pos hw, hm, Bool.false_eq_true,
          if_false]
        exact depPass_acc_mem h today now cap wA wO rest (n + 1) _ _
          (List.mem_append_right _ (List.mem_singleton.mpr rfl))
      · by_cases hw0 : wA.contains name0
        · by_cases hm0 : (deps0.filter fun d => wO.contains d).isEmpty
          · simp only [depPass, if_neg hcap, if_pos hw0, if_pos hm0] at hres ⊢
            exact ih _ _ hres (name, deps) hmem hw hmne
          · simp only [depPass, if_neg hcap, if_pos hw0, if_neg hm0] at hres ⊢
            exact ih _ _ hres (name, deps) hmem hw hmne
        · simp only [depPass, if_neg hcap, if_neg hw0] at hres ⊢
          exact ih _ _ hres (name, deps) hmem hw hmne

/-- A successful analyzer run returns the composed pass output and
replaces the candidate table with it. -/
theorem analyze_broken_traces_ok (h : String → String) (today : String)
    (now cap : Nat) (depsFetch : Except String (List (String × List String)))
    (db : DB) :
    analyze_broken_traces h (.ok ()) depsFetch cap now today db =
      (.ok (analyzerOutput h today now cap depsFetch db).1,
        { db with
          broken_traces := (analyzerOutput h today now cap depsFetch db).2
          sync_jobs := db.sync_jobs ++
            [completedAnalysisJob db.sync_jobs.length now
              (analyzerOutput h today now cap depsFetch db).1] }) := by
  cases depsFetch <;> rfl

theorem analyzerOutput_le_cap (h : String → String) (today : String)
    (now cap : Nat) (depsFetch : Except String (List (String × List String)))
    (db : DB) : (analyzerOutput h today now cap depsFetch db).1 ≤ cap := by
  have h1 : (priorityPass h today now cap (priorityPool db) 0 []).1 ≤ cap := by
    rw [priorityPass_count h today now cap _ 0 [] (Nat.zero_le cap)]
    exact Nat.min_le_left _ _
  cases depsFetch with
  | error e => exact h1
  | ok hints =>
    simp only [analyzerOutput]
    by_cases hz : (priorityPass h today now cap (priorityPool db) 0 []).1 = 0
    · rw [if_pos hz]
      exact h1
    · rw [if_neg hz]
      exact depPass_le_cap h today now cap _ _ hints _ _ h1

theorem analyzerOutput_len (h : String → String) (today : String)
    (now cap : Nat) (depsFetch : Except String (List (String × List String)))
    (db : DB) :
    (analyzerOutput h today now cap depsFetch db).2.length =
      (analyzerOutput h today now cap depsFetch db).1 := by
  have h1 := priorityPass_len h today now cap (priorityPool db) 0 []
  simp only [List.length_nil, Nat.add_zero] at h1
  cases depsFetch with
  | error e => simpa [analyzerOutput] using h1
  | ok hints =>
    simp only [analyzerOutput]
    by_cases hz : (priorityPass h today now cap (priorityPool db) 0 []).1 = 0
    · rw [if_pos hz]
      exact h1
    · rw [if_neg hz]
      have h2 := depPass_len h today now cap (servicesWithApm db)
        (servicesWithoutApm db) hints
        (priorityPass h today now cap (priorityPool db) 0 []).1
        (priorityPass h today now cap (priorityPool db) 0 []).2
      omega

/-- C3: the two heuristic passes of `analyzeBrokenTraces` share one cap
counter and the priority pass runs first: whenever the priority pool holds
at least `cap` qualifying uninstrumented services, exactly `cap` candidates
are created, all of them from the priority pass (the dependency heuristic
contributes zero regardless of the hints); and in general a successful run
never creates more than `cap` candidates in total. -/
theorem analyzer_cap_shared (h : String → String) (today : String)
    (now cap : Nat) (depsFetch : Except String (List (String × List String)))
    (db : DB)
    (hq : cap ≤ (priorityPool db).countP fun s => qualifies s) :
    (analyze_broken_traces h (.ok ()) depsFetch cap now today db).1 = .ok cap ∧
    (analyze_broken_traces h (.ok ()) depsFetch cap now today db).2.broken_traces =
      (priorityPass h today now cap (priorityPool db) 0 []).2 ∧
    (analyze_broken_traces h (.ok ()) depsFetch cap now today
        db).2.broken_traces.length = cap ∧
    (∀ (depsFetch' : Except String (List (String × List String))) (db' : DB)
        (n : Nat),
      (analyze_broken_traces h (.ok ()) depsFetch' cap now today db').1 = .ok n →
      n ≤ cap ∧
        (analyze_broken_traces h (.ok ()) depsFetch' cap now today
          db').2.broken_traces.length = n) := by
  have hn1 : (priorityPass h today now cap (priorityPool db) 0 []).1 = cap := by
    rw [priorityPass_count h today now cap _ 0 [] (Nat.zero_le cap)]
    simpa using Nat.min_eq_left hq
  have hout : analyzerOutput h today now cap depsFetch db =
      priorityPass h today now cap (priorityPool db) 0 [] := by
    cases depsFetch with
    | error e => rfl
    | ok hints =>
      simp only [analyzerOutput]
      rw [depPass_break h today now cap _ _ hints _ _ (le_of_eq hn1.symm)]
      by_cases hz : (priorityPass h today now cap (priorityPool db) 0 []).1 = 0
      · rw [if_pos hz]
      · rw [if_neg hz]
  refine ⟨?_, ?_, ?_, ?_⟩
  · rw [analyze_broken_traces_ok, hout]
    simp [hn1]
  · rw [analyze_broken_traces_ok, hout]
  · rw [analyze_broken_traces_ok]
    show (analyzerOutput h today now cap depsFetch db).2.length = cap
    rw [analyzerOutput_len h today now cap depsFetch db, hout, hn1]
  · intro depsFetch' db' n hres
    rw [analyze_broken_traces_ok] at hres
    simp only [Except.ok.injEq] at hres
    constructor
    · rw [← hres]
      exact analyzerOutput_le_cap h today now cap depsFetch' db'
    · rw [analyze_broken_traces_ok]
      simpa [analyzerOutput_len h today now cap depsFetch' db'] using hres

/-- C3 witness: `cap = 2`, five qualifying uninstrumented services, a
dependency hint available: exactly 2 candidates exist after the run. -/
theorem analyzer_cap_shared_witness :
    (analyze_broken_traces (fun s => s) (.ok ()) (.ok [("gw", ["a"])]) 2 9
      "2026-10-12" dbC3).1 = .ok 2 ∧
    (analyze_broken_traces (fun s => s) (.ok ()) (.ok [("gw", ["a"])]) 2 9
      "2026-10-12" dbC3).2.broken_traces.length = 2 := by
  have hc := analyzer_cap_shared (fun s => s) "2026-10-12" 9 2
    (.ok [("gw", ["a"])]) dbC3 (by decide)
  exact ⟨hc.1, hc.2.2.1⟩

/-- C6 (code bug): `import hashlib` executes only inside strategy 1's
emission branch (sync_service.py line 208), leaving the name function-local
and unbound whenever the priority pass emits zero candidates; the first
dependency emission (line 241) then raises an UnboundLocalError that the
handler at line 255 swallows, aborting strategy 2.  With A uninstrumented
but carrying no risk reason, B instrumented, and hints B→{A}, the analyzer
thus creates no candidate at all, losing the multi-participant candidate
root=B, missing=[A], total=2, missing=1 that the claim (and the spec's own
scenario) demand; the same hints do produce exactly that candidate, in
addition to A's priority candidate, as soon as A qualifies and the
priority pass has emitted, binding `hashlib`. -/
theorem dep_candidate_lost_without_priority_emission :
    (analyze_broken_traces (fun s => s) (.ok ()) (.ok [("B", ["A"])]) 10 9
      "2026-10-12" dbC6bug).1 = .ok 0 ∧
    (analyze_broken_traces (fun s => s) (.ok ()) (.ok [("B", ["A"])]) 10 9
      "2026-10-12" dbC6bug).2.broken_traces = [] ∧
    (analyze_broken_traces (fun s => s) (.ok ()) (.ok [("B", ["A"])]) 10 9
      "2026-10-12" dbC6).2.broken_traces =
      [mkPriorityTrace (fun s => s) "2026-10-12" 9 (svcRec "A" true),
       mkDepTrace (fun s => s) "2026-10-12" 9 "B" ["A"] ["A"]] :=
  ⟨rfl, rfl, rfl⟩

theorem mem_servicesWithoutApm (db : DB) (x : String)
    (hx : x ∈ servicesWithoutApm db) :
    ∃ r ∈ db.apm_services, r.service_name = x ∧ r.has_apm = false := by
  simp only [servicesWithoutApm, List.mem_map, List.mem_filter] at hx
  obtain ⟨r, ⟨hr, hb⟩, he⟩ := hx
  exact ⟨r, hr, he, by simpa using hb⟩

theorem mem_servicesWithApm (db : DB) (x : String)
    (hx : x ∈ servicesWithApm db) :
    ∃ r ∈ db.apm_services, r.service_name = x ∧ r.has_apm = true := by
  simp only [servicesWithApm, List.mem_map, List.mem_filter] at hx
  obtain ⟨r, ⟨hr, hb⟩, he⟩ := hx
  exact ⟨r, hr, he, hb⟩

/-- C10: a service that has a catalog row but no APMService row is in
neither partition of the analyzer, so no candidate of a successful
analysis is rooted at it — whatever its customer-facing flag or risk tags
— and no candidate lists it among its missing services. -/
theorem unsynced_service_invisible_to_analyzer (h : String → String)
    (today : String) (now cap : Nat)
    (depsFetch : Except String (List (String × List String))) (db : DB)
    (S : ServiceRec) (_hcat : S ∈ db.services)
    (hnorow : ∀ r ∈ db.apm_services, r.service_name ≠ S.service_name) :
    ∀ c ∈ (analyze_broken_traces h (.ok ()) depsFetch cap now today
        db).2.broken_traces,
      c.root_service ≠ S.service_name ∧
        S.service_name ∉ c.missing_services := by
  have hnotW : S.service_name ∉ servicesWithoutApm db := by
    intro hx
    obtain ⟨r, hr, he, _⟩ := mem_servicesWithoutApm db _ hx
    exact hnorow r hr he
  have hnotA : S.service_name ∉ servicesWithApm db := by
    intro hx
    obtain ⟨r, hr, he, _⟩ := mem_servicesWithApm db _ hx
    exact hnorow r hr he
  have hpriority : ∀ c ∈ (priorityPass h today now cap (priorityPool db)
      0 []).2, c.root_service ≠ S.service_name ∧
        S.service_name ∉ c.missing_services := by
    intro c hc
    rcases priorityPass_mem_spec h today now cap _ 0 [] c hc with hin | ⟨s, hs, _, he⟩
    · simp at hin
    · have hsW : s.service_name ∈ servicesWithoutApm db := by
        simp only [priorityPool, List.mem_filter] at hs
        exact List.elem_iff.mp hs.2
      have hne : s.service_name ≠ S.service_name := fun heq => hnotW (heq ▸ hsW)
      subst he
      exact ⟨hne, by simpa [mkPriorityTrace] using fun heq => hne heq.symm⟩
  rw [analyze_broken_traces_ok]
  intro c hc
  simp only at hc
  cases depsFetch with
  | error e => exact hpriority c hc
  | ok hints =>
    simp only [analyzerOutput] at hc
    by_cases hz : (priorityPass h today now cap (priorityPool db) 0 []).1 = 0
    · rw [if_pos hz] at hc
      exact hpriority c hc
    · rw [if_neg hz] at hc
      rcases depPass_mem_spec h today now cap _ _ hints _ _ c hc with
        hin | ⟨p, _, hw, _, he⟩
      · exact hpriority c hin
      · have hpA : p.1 ∈ servicesWithApm db := List.elem_iff.mp hw
        have hne : p.1 ≠ S.service_name := fun heq => hnotA (heq ▸ hpA)
        subst he
        refine ⟨hne, fun hmem => ?_⟩
        simp only [mkDepTrace, List.mem_filter] at hmem
        exact hnotW (List.elem_iff.mp hmem.2)

/-- C10 witness: `ghost` (customer-facing, catalog-synced, never
coverage-synced) roots no candidate and appears in no missing set; the
run's only candidate is the priority candidate for `b`. -/
theorem unsynced_service_invisible_witness :
    (mkPriorityTrace (fun s => s) "2026-10-12" 9
        (svcRec "b" true)).root_service ≠ "ghost" ∧
      "ghost" ∉ (mkPriorityTrace (fun s => s) "2026-10-12" 9
        (svcRec "b" true)).missing_services :=
  unsynced_service_invisible_to_analyzer (fun s => s) "2026-10-12" 9 5
    (.ok [("gw", ["b"])]) dbC10 (svcRec "ghost" true) (by decide) (by decide)
    (mkPriorityTrace (fun s => s) "2026-10-12" 9 (svcRec "b" true)) (by decide)

/-- The priority pass at two different wall-clock times produces the same
counter and the same candidate identifiers (the analysis timestamp is the
only field that can differ). -/
theorem priorityPass_time_invariant (h : String → String) (today : String)
    (cap : Nat) (now now' : Nat) (l : List ServiceRec) (n : Nat)
    (acc acc' : List BrokenTraceRec)
    (hacc : acc.map BrokenTraceRec.trace_id =
      acc'.map BrokenTraceRec.trace_id) :
    (priorityPass h today now cap l n acc).1 =
      (priorityPass h today now' cap l n acc').1 ∧
    (priorityPass h today now cap l n acc).2.map BrokenTraceRec.trace_id =
      (priorityPass h today now' cap l n acc').2.map BrokenTraceRec.trace_id := by
  induction l generalizing n acc acc' with
  | nil => exact ⟨rfl, by simp only [priorityPass]; exact hacc⟩
  | cons s rest ih =>
    by_cases hcap : cap ≤ n
    · simp [priorityPass, if_pos hcap, hacc]
    · by_cases hq : qualifies s
      · simp only [priorityPass, if_neg hcap, if_pos hq]
        exact ih _ _ _ (by simp [hacc, mkPriorityTrace])
      · simp only [priorityPass, if_neg hcap, if_neg hq]
        exact ih _ _ _ hacc

theorem depPass_time_invariant (h : String → String) (today : String)
    (cap : Nat) (wA wO : List String) (now now' : Nat)
    (l : List (String × List String)) (n : Nat)
    (acc acc' : List BrokenTraceRec)
    (hacc : acc.map BrokenTraceRec.trace_id =
      acc'.map BrokenTraceRec.trace_id) :
    (depPass h today now cap wA wO l n acc).1 =
      (depPass h today now' cap wA wO l n acc').1 ∧
    (depPass h today now cap wA wO l n acc).2.map BrokenTraceRec.trace_id =
      (depPass h today now' cap wA wO l n acc').2.map BrokenTraceRec.trace_id := by
  induction l generalizing n acc acc' with
  | nil => exact ⟨rfl, by simp only [depPass]; exact hacc⟩
  | cons p rest ih =>
    obtain ⟨name, deps⟩ := p
    by_cases hcap : cap ≤ n
    · simp [depPass, if_pos hcap, hacc]
    · by_cases hw : wA.contains name
      · by_cases hm : (deps.filter fun d => wO.contains d).isEmpty
        · simp only [depPass, if_neg hcap, if_pos hw, if_pos hm]
          exact ih _ _ _ hacc
        · simp only [depPass, if_neg hcap, if_pos hw, if_neg hm]
          exact ih _ _ _ (by simp [hacc, mkDepTrace])
      · simp only [depPass, if_neg hcap, if_neg hw]
        exact ih _ _ _ hacc

theorem analyzerOutput_time_invariant (h : String → String) (today : String)
    (cap : Nat) (depsFetch : Except String (List (String × List String)))
    (db : DB) (now now' : Nat) :
    (analyzerOutput h today now cap depsFetch db).1 =
      (analyzerOutput h today now' cap depsFetch db).1 ∧
    (analyzerOutput h today now cap depsFetch db).2.map
        BrokenTraceRec.trace_id =
      (analyzerOutput h today now' cap depsFetch db).2.map
        BrokenTraceRec.trace_id := by
  have h1 := priorityPass_time_invariant h today cap now now'
    (priorityPool db) 0 [] [] rfl
  cases depsFetch with
  | error e => exact h1
  | ok hints =>
    simp only [analyzerOutput]
    by_cases hz : (priorityPass h today now cap (priorityPool db) 0 []).1 = 0
    · have hz' : (priorityPass h today now' cap (priorityPool db) 0 []).1 = 0 := by
        rw [← h1.1]
        exact hz
      rw [if_pos hz, if_pos hz']
      exact h1
    · have hz' : ¬ (priorityPass h today now' cap (priorityPool db) 0 []).1 = 0 := by
        rw [← h1.1]
        exact hz
      rw [if_neg hz, if_neg hz', ← h1.1]
      exact depPass_time_invariant h today cap _ _ now now' hints _ _ _ h1.2

/-- C4: running the analyzer twice on the same calendar day with unchanged
inputs yields the same candidate identifiers, the same number of candidate
rows (the rerun discards all prior rows before inserting, so nothing is
duplicated), and the same reported count — whatever the wall-clock times
of the two runs within that day. -/
theorem analyzer_same_day_deterministic (h : String → String)
    (today : String) (cap : Nat)
    (depsFetch : Except String (List (String × List String))) (db : DB)
    (now1 now2 : Nat) :
    ((analyze_broken_traces h (.ok ()) depsFetch cap now2 today
        (analyze_broken_traces h (.ok ()) depsFetch cap now1 today
          db).2).2.broken_traces.map BrokenTraceRec.trace_id =
      (analyze_broken_traces h (.ok ()) depsFetch cap now1 today
        db).2.broken_traces.map BrokenTraceRec.trace_id) ∧
    ((analyze_broken_traces h (.ok ()) depsFetch cap now2 today
        (analyze_broken_traces h (.ok ()) depsFetch cap now1 today
          db).2).2.broken_traces.length =
      (analyze_broken_traces h (.ok ()) depsFetch cap now1 today
        db).2.broken_traces.length) ∧
    (analyze_broken_traces h (.ok ()) depsFetch cap now2 today
        (analyze_broken_traces h (.ok ()) depsFetch cap now1 today db).2).1 =
      (analyze_broken_traces h (.ok ()) depsFetch cap now1 today db).1 := by
  have hdb : analyzerOutput h today now2 cap depsFetch
      ((analyze_broken_traces h (.ok ()) depsFetch cap now1 today db).2) =
      analyzerOutput h today now2 cap depsFetch db := by
    rw [analyze_broken_traces_ok]
    rfl
  have hti := analyzerOutput_time_invariant h today cap depsFetch db now2 now1
  have e1 : (analyze_broken_traces h (.ok ()) depsFetch cap now1 today
      db).2.broken_traces = (analyzerOutput h today now1 cap depsFetch db).2 := by
    rw [analyze_broken_traces_ok]
  have e1c : (analyze_broken_traces h (.ok ()) depsFetch cap now1 today db).1 =
      .ok (analyzerOutput h today now1 cap depsFetch db).1 := by
    rw [analyze_broken_traces_ok]
  have e2 : (analyze_broken_traces h (.ok ()) depsFetch cap now2 today
      (analyze_broken_traces h (.ok ()) depsFetch cap now1 today
        db).2).2.broken_traces =
      (analyzerOutput h today now2 cap depsFetch db).2 := by
    rw [analyze_broken_traces_ok h today now2 cap depsFetch
      ((analyze_broken_traces h (.ok ()) depsFetch cap now1 today db).2)]
    show (analyzerOutput h today now2 cap depsFetch
      (analyze_broken_traces h (.ok ()) depsFetch cap now1 today db).2).2 = _
    rw [hdb]
  have e2c : (analyze_broken_traces h (.ok ()) depsFetch cap now2 today
      (analyze_broken_traces h (.ok ()) depsFetch cap now1 today db).2).1 =
      .ok (analyzerOutput h today now2 cap depsFetch db).1 := by
    rw [analyze_broken_traces_ok h today now2 cap depsFetch
      ((analyze_broken_traces h (.ok ()) depsFetch cap now1 today db).2)]
    show Except.ok (analyzerOutput h today now2 cap depsFetch
      (analyze_broken_traces h (.ok ()) depsFetch cap now1 today db).2).1 = _
    rw [hdb]
  refine ⟨?_, ?_, ?_⟩
  · rw [e1, e2]
    exact hti.2
  · rw [e1, e2]
    rw [analyzerOutput_len, analyzerOutput_len]
    exact hti.1
  · rw [e1c, e2c, hti.1]

/-! ## Lemmas about `updateFirst` and the coverage reconciliation step -/

theorem updateFirst_map_eq {α β : Type} (p : α → Bool) (f : α → α)
    (g : α → β) (l : List α) (hg : ∀ x, p x = true → g (f x) = g x) :
    (updateFirst p f l).map g = l.map g := by
  induction l with
  | nil => rfl
  | cons x rest ih =>
    by_cases hx : p x
    · simp [updateFirst, hx, hg x hx]
    · simp [updateFirst, hx, ih]

theorem mem_updateFirst {α : Type} {p : α → Bool} {f : α → α} {l : List α}
    {y : α} (hy : y ∈ updateFirst p f l) :
    y ∈ l ∨ ∃ x ∈ l, p x = true ∧ y = f x := by
  induction l with
  | nil => simp [updateFirst] at hy
  | cons x rest ih =>
    by_cases hx : p x
    · simp only [updateFirst, if_pos hx, List.mem_cons] at hy
      rcases hy with he | hy
      · exact Or.inr ⟨x, List.mem_cons_self _ _, hx, he⟩
      · exact Or.inl (List.mem_cons_of_mem _ hy)
    · simp only [updateFirst, if_neg hx, List.mem_cons] at hy
      rcases hy with he | hy
      · exact Or.inl (he ▸ List.mem_cons_self _ _)
      · rcases ih hy with hin | ⟨x', hx', hp', he'⟩
        · exact Or.inl (List.mem_cons_of_mem _ hin)
        · exact Or.inr ⟨x', List.mem_cons_of_mem _ hx', hp', he'⟩

/-- One reconciliation step either keeps the name column unchanged (update
branches) or appends the processed service's name, which was absent. -/
theorem coverageStep_names (now : Nat) (apmList : List ApmData)
    (rows : List APMServiceRec) (svc : ServiceRec) :
    (coverageStep now apmList rows svc).map APMServiceRec.service_name =
        rows.map APMServiceRec.service_name ∨
    ((coverageStep now apmList rows svc).map APMServiceRec.service_name =
        rows.map APMServiceRec.service_name ++ [svc.service_name] ∧
      svc.service_name ∉ rows.map APMServiceRec.service_name) := by
  have habsent : rows.find? (fun r => r.service_name == svc.service_name) =
      none → svc.service_name ∉ rows.map APMServiceRec.service_name := by
    intro hn hmem
    rw [List.find?_eq_none] at hn
    obtain ⟨r, hr, he⟩ := List.mem_map.mp hmem
    exact hn r hr (by simp [he])
  unfold coverageStep
  cases hd : apmList.find? (fun a => a.service_name == svc.service_name) with
  | some d =>
    cases he : rows.find? (fun r => r.service_name == svc.service_name) with
    | some r0 =>
      exact Or.inl (updateFirst_map_eq _ _ _ _ (fun x _ => rfl))
    | none => exact Or.inr ⟨by simp, habsent he⟩
  | none =>
    cases he : rows.find? (fun r => r.service_name == svc.service_name) with
    | some r0 =>
      exact Or.inl (updateFirst_map_eq _ _ _ _ (fun x _ => rfl))
    | none => exact Or.inr ⟨by simp, habsent he⟩

theorem coverageStep_nodup (now : Nat) (apmList : List ApmData)
    (rows : List APMServiceRec) (svc : ServiceRec)
    (hnodup : (rows.map APMServiceRec.service_name).Nodup) :
    ((coverageStep now apmList rows svc).map
      APMServiceRec.service_name).Nodup := by
  rcases coverageStep_names now apmList rows svc with he | ⟨he, habs⟩
  · rw [he]; exact hnodup
  · rw [he, List.nodup_append]
    exact ⟨hnodup, List.nodup_singleton _,
      fun x hx hx' => habs ((List.mem_singleton.mp hx') ▸ hx)⟩

theorem coverageStep_mem_names (now : Nat) (apmList : List ApmData)
    (rows : List APMServiceRec) (svc : ServiceRec) (x : String)
    (hx : x ∈ rows.map APMServiceRec.service_name) :
    x ∈ (coverageStep now apmList rows svc).map APMServiceRec.service_name := by
  rcases coverageStep_names now apmList rows svc with he | ⟨he, _⟩
  · rw [he]; exact hx
  · rw [he]; exact List.mem_append_left _ hx

/-- If no telemetry entry carries the name `N`, a reconciliation step never
turns a row named `N` back to instrumented. -/
theorem coverageStep_preserves_false (now : Nat) (apmList : List ApmData)
    (rows : List APMServiceRec) (svc : ServiceRec) (N : String)
    (habs : ∀ a ∈ apmList, a.service_name ≠ N)
    (hP : ∀ r ∈ rows, r.service_name = N → r.has_apm = false) :
    ∀ r ∈ coverageStep now apmList rows svc,
      r.service_name = N → r.has_apm = false := by
  intro r hr hname
  unfold coverageStep at hr
  cases hd : apmList.find? (fun a => a.service_name == svc.service_name) with
  | some d =>
    have hdn : d.service_name = svc.service_name :=
      by simpa using List.find?_some hd
    have hsvcN : svc.service_name ≠ N :=
      hdn ▸ habs d (List.mem_of_find?_eq_some hd)
    rw [hd] at hr
    cases he : rows.find? (fun r => r.service_name == svc.service_name) with
    | some r0 =>
      rw [he] at hr
      rcases mem_updateFirst hr with hin | ⟨x, hx, hpx, hfx⟩
      · exact hP r hin hname
      · exfalso
        apply hsvcN
        rw [← hname, hfx]
        exact (by simpa using hpx : x.service_name = svc.service_name) ▸ rfl
    | none =>
      rw [he] at hr
      rcases List.mem_append.mp hr with hin | hin
      · exact hP r hin hname
      · simp only [List.mem_singleton] at hin
        subst hin
        exact absurd (by simpa using hname) hsvcN
  | none =>
    rw [hd] at hr
    cases he : rows.find? (fun r => r.service_name == svc.service_name) with
    | some r0 =>
      rw [he] at hr
      rcases mem_updateFirst hr with hin | ⟨x, hx, hpx, hfx⟩
      · exact hP r hin hname
      · rw [hfx]
    | none =>
      rw [he] at hr
      rcases List.mem_append.mp hr with hin | hin
      · exact hP r hin hname
      · simp only [List.mem_singleton] at hin
        rw [hin]

/-- Updating the (unique, by nodup) row named `nm` to uninstrumented
leaves every row named `nm` uninstrumented. -/
theorem updateFirst_false_of_nodup (nm : String) (now : Nat)
    (rows : List APMServiceRec)
    (hnodup : (rows.map APMServiceRec.service_name).Nodup) :
    ∀ r ∈ updateFirst (fun r => r.service_name == nm)
        (fun r => { r with has_apm := false, updated_at := now }) rows,
      r.service_name = nm → r.has_apm = false := by
  induction rows with
  | nil => simp [updateFirst]
  | cons x rest ih =>
    rw [List.map_cons, List.nodup_cons] at hnodup
    intro r hr hname
    by_cases hx : x.service_name == nm
    · simp only [updateFirst, if_pos hx, List.mem_cons] at hr
      rcases hr with he | hr
      · rw [he]
      · exfalso
        apply hnodup.1
        rw [(by simpa using hx : x.service_name = nm)]
        exact List.mem_map.mpr ⟨r, hr, hname⟩
    · simp only [updateFirst, if_neg hx, List.mem_cons] at hr
      rcases hr with he | hr
      · subst he
        exact absurd (by simp [hname]) hx
      · exact ih hnodup.2 r hr hname

/-- Processing the absent service itself establishes the negative marking
and the existence of its `APMService` row. -/
theorem coverageStep_establishes (now : Nat) (apmList : List ApmData)
    (rows : List APMServiceRec) (svc : ServiceRec)
    (hnodup : (rows.map APMServiceRec.service_name).Nodup)
    (habs : ∀ a ∈ apmList, a.service_name ≠ svc.service_name) :
    (∀ r ∈ coverageStep now apmList rows svc,
        r.service_name = svc.service_name → r.has_apm = false) ∧
    svc.service_name ∈ (coverageStep now apmList rows svc).map
      APMServiceRec.service_name := by
  have hd : apmList.find? (fun a => a.service_name == svc.service_name) =
      none := by
    rw [List.find?_eq_none]
    intro a ha
    simpa using habs a ha
  unfold coverageStep
  rw [hd]
  cases he : rows.find? (fun r => r.service_name == svc.service_name) with
  | some r0 =>
    constructor
    · exact updateFirst_false_of_nodup svc.service_name now rows hnodup
    · show svc.service_name ∈ (updateFirst
          (fun r => r.service_name == svc.service_name)
          (fun r => { r with has_apm := false, updated_at := now })
          rows).map APMServiceRec.service_name
      rw [updateFirst_map_eq (fun r => r.service_name == svc.service_name)
        (fun r => { r with has_apm := false, updated_at := now })
        APMServiceRec.service_name rows (fun x _ => rfl)]
      have hr0 : r0.service_name = svc.service_name :=
        by simpa using List.find?_some he
      exact List.mem_map.mpr ⟨r0, List.mem_of_find?_eq_some he, hr0⟩
  | none =>
    constructor
    · intro r hr hname
      rcases List.mem_append.mp hr with hin | hin
      · exfalso
        rw [List.find?_eq_none] at he
        exact he r hin (by simp [hname])
      · simp only [List.mem_singleton] at hin
        rw [hin]
    · simp

theorem coverageFold_preserves_false (now : Nat) (apmList : List ApmData)
    (ss : List ServiceRec) (rows : List APMServiceRec) (N : String)
    (habs : ∀ a ∈ apmList, a.service_name ≠ N)
    (hP : ∀ r ∈ rows, r.service_name = N → r.has_apm = false) :
    ∀ r ∈ ss.foldl (coverageStep now apmList) rows,
      r.service_name = N → r.has_apm = false := by
  induction ss generalizing rows with
  | nil => simpa
  | cons s rest ih =>
    exact ih _ (coverageStep_preserves_false now apmList rows s N habs hP)

theorem coverageFold_mem_names (now : Nat) (apmList : List ApmData)
    (ss : List ServiceRec) (rows : List APMServiceRec) (x : String)
    (hx : x ∈ rows.map APMServiceRec.service_name) :
    x ∈ (ss.foldl (coverageStep now apmList) rows).map
      APMServiceRec.service_name := by
  induction ss generalizing rows with
  | nil => exact hx
  | cons s rest ih =>
    exact ih _ (coverageStep_mem_names now apmList rows s x hx)

theorem coverageFold_establishes (now : Nat) (apmList : List ApmData)
    (ss : List ServiceRec) (rows : List APMServiceRec) (svc : ServiceRec)
    (hnodup : (rows.map APMServiceRec.service_name).Nodup)
    (hs : svc ∈ ss)
    (habs : ∀ a ∈ apmList, a.service_name ≠ svc.service_name) :
    (∀ r ∈ ss.foldl (coverageStep now apmList) rows,
        r.service_name = svc.service_name → r.has_apm = false) ∧
    svc.service_name ∈ (ss.foldl (coverageStep now apmList) rows).map
      APMServiceRec.service_name := by
  induction ss generalizing rows with
  | nil => simp at hs
  | cons s rest ih =>
    rcases List.mem_cons.mp hs with he | hmem
    · subst he
      have hest := coverageStep_establishes now apmList rows svc hnodup habs
      exact ⟨coverageFold_preserves_false now apmList rest _ _ habs hest.1,
        coverageFold_mem_names now apmList rest _ _ hest.2⟩
    · exact ih _ (coverageStep_nodup now apmList rows s hnodup) hmem

/-- C1: after a successful `syncCoverage()`, every catalog service absent
from every telemetry entry — in particular every service when the
telemetry list is empty — has its `APMService` row present and forced to
`has_apm = false`, even if that row previously said `true`.  (The nodup
hypothesis is the store's unique constraint on `apm_services.service_name`,
models.py line 51.) -/
theorem coverage_negative_marking (db : DB) (apmList : List ApmData)
    (now : Nat)
    (hnodup : (db.apm_services.map APMServiceRec.service_name).Nodup)
    (svc : ServiceRec) (hs : svc ∈ db.services)
    (habs : ∀ a ∈ apmList, a.service_name ≠ svc.service_name) :
    (∀ r ∈ (sync_apm_coverage (.ok apmList) now db).2.apm_services,
        r.service_name = svc.service_name → r.has_apm = false) ∧
    svc.service_name ∈
      (sync_apm_coverage (.ok apmList) now db).2.apm_services.map
        APMServiceRec.service_name := by
  show (∀ r ∈ db.services.foldl (coverageStep now apmList) db.apm_services,
      r.service_name = svc.service_name → r.has_apm = false) ∧
    svc.service_name ∈ (db.services.foldl (coverageStep now apmList)
      db.apm_services).map APMServiceRec.service_name
  exact coverageFold_establishes now apmList db.services db.apm_services svc
    hnodup hs habs

/-- C1 witness: `alpha` has an `APMService` row saying instrumented; a
coverage sync against an empty telemetry window downgrades it to
`has_apm = false`. -/
theorem coverage_negative_marking_witness :
    (⟨"alpha", false, none, none, 0, 0, 5⟩ : APMServiceRec) ∈
      (sync_apm_coverage (.ok []) 5 dbC1).2.apm_services ∧
    ∀ r ∈ (sync_apm_coverage (.ok []) 5 dbC1).2.apm_services,
      r.service_name = "alpha" → r.has_apm = false := by
  have hc := coverage_negative_marking dbC1 [] 5 (by decide)
    (svcRec "alpha" false) (by decide) (by simp)
  exact ⟨by decide, hc.1⟩

/-! ## Lemmas for catalog-sync idempotence -/

theorem find?_updateFirst_self {α : Type} (p : α → Bool) (f : α → α)
    (l : List α) (x : α) (hx : l.find? p = some x)
    (hf : ∀ y, p y = true → p (f y) = true) :
    (updateFirst p f l).find? p = some (f x) := by
  induction l with
  | nil => simp at hx
  | cons a rest ih =>
    by_cases ha : p a
    · rw [List.find?_cons_of_pos _ ha, Option.some.injEq] at hx
      subst hx
      rw [updateFirst, if_pos ha, List.find?_cons_of_pos _ (hf a ha)]
    · rw [List.find?_cons_of_neg _ ha] at hx
      rw [updateFirst, if_neg ha, List.find?_cons_of_neg _ ha]
      exact ih hx

theorem find?_updateFirst_other {α : Type} (p q : α → Bool) (f : α → α)
    (l : List α)
    (hpq : ∀ x, p x = true → q x = false ∧ q (f x) = false) :
    (updateFirst p f l).find? q = l.find? q := by
  induction l with
  | nil => rfl
  | cons a rest ih =>
    by_cases ha : p a
    · rw [updateFirst, if_pos ha,
        List.find?_cons_of_neg _ (by simp [(hpq a ha).2]),
        List.find?_cons_of_neg _ (by simp [(hpq a ha).1])]
    · rw [updateFirst, if_neg ha]
      by_cases hq : q a
      · rw [List.find?_cons_of_pos _ hq, List.find?_cons_of_pos _ hq]
      · rw [List.find?_cons_of_neg _ hq, List.find?_cons_of_neg _ hq]
        exact ih

theorem find?_upsertService_other (now : Nat) (d : ServiceData)
    (svcs : List ServiceRec) (nm : String) (hne : d.service_name ≠ nm) :
    (upsertService now svcs d).find? (fun r => r.service_name == nm) =
      svcs.find? (fun r => r.service_name == nm) := by
  unfold upsertService
  cases hf : svcs.find? (fun r => r.service_name == d.service_name) with
  | some r0 =>
    exact find?_updateFirst_other _ _ _ svcs (fun x hx => by
      have hxname : x.service_name = d.service_name := by simpa using hx
      constructor <;> simp [applyServiceData, hxname, hne])
  | none =>
    rw [List.find?_append]
    have : ([newServiceRec d now].find? fun r => r.service_name == nm) =
        none := by
      simp [newServiceRec, hne]
    rw [this]
    cases svcs.find? (fun r => r.service_name == nm) <;> rfl

theorem find?_upsertService_self (now : Nat) (d : ServiceData)
    (svcs : List ServiceRec) :
    ∃ r, (upsertService now svcs d).find?
        (fun r => r.service_name == d.service_name) = some r ∧ reflects r d := by
  unfold upsertService
  cases hf : svcs.find? (fun r => r.service_name == d.service_name) with
  | some r0 =>
    refine ⟨applyServiceData d now r0,
      find?_updateFirst_self _ _ svcs r0 hf (fun y hy => by
        simpa [applyServiceData] using hy), ?_⟩
    have hr0 : r0.service_name = d.service_name := by
      simpa using List.find?_some hf
    exact ⟨hr0, rfl, rfl, rfl, rfl, rfl, rfl⟩
  | none =>
    refine ⟨newServiceRec d now, ?_, rfl, rfl, rfl, rfl, rfl, rfl, rfl⟩
    rw [List.find?_append, hf]
    simp [newServiceRec]

theorem find?_foldl_upsert_other (now : Nat) (cat : List ServiceData)
    (svcs : List ServiceRec) (nm : String)
    (hnm : ∀ d ∈ cat, d.service_name ≠ nm) :
    (cat.foldl (upsertService now) svcs).find?
        (fun r => r.service_name == nm) =
      svcs.find? (fun r => r.service_name == nm) := by
  induction cat generalizing svcs with
  | nil => rfl
  | cons c rest ih =>
    rw [List.foldl_cons,
      ih _ (fun d hd => hnm d (List.mem_cons_of_mem _ hd)),
      find?_upsertService_other now c svcs nm (hnm c (List.mem_cons_self _ _))]

/-- After a full catalog sweep, every fetched definition is reflected by
the first Service row carrying its name. -/
theorem foldl_upsert_aligned (now : Nat) (cat : List ServiceData)
    (svcs : List ServiceRec)
    (hnodup : (cat.map ServiceData.service_name).Nodup) :
    ∀ d ∈ cat, ∃ r, (cat.foldl (upsertService now) svcs).find?
        (fun r => r.service_name == d.service_name) = some r ∧ reflects r d := by
  induction cat generalizing svcs with
  | nil => simp
  | cons c rest ih =>
    rw [List.map_cons, List.nodup_cons] at hnodup
    intro d hd
    rcases List.mem_cons.mp hd with he | hmem
    · subst he
      obtain ⟨r, hr, hrefl⟩ := find?_upsertService_self now d svcs
      refine ⟨r, ?_, hrefl⟩
      rw [List.foldl_cons, find?_foldl_upsert_other now rest _ d.service_name
        (fun d' hd' he' => hnodup.1 (he' ▸ List.mem_map.mpr ⟨d', hd', rfl⟩))]
      exact hr
    · rw [List.foldl_cons]
      exact ih _ hnodup.2 d hmem

theorem updateFirst_map_of_first {α β : Type} (p : α → Bool) (f : α → α)
    (g : α → β) (l : List α) (x : α) (hx : l.find? p = some x)
    (hgx : g (f x) = g x) :
    (updateFirst p f l).map g = l.map g := by
  induction l with
  | nil => rfl
  | cons a rest ih =>
    by_cases ha : p a
    · rw [List.find?_cons_of_pos _ ha, Option.some.injEq] at hx
      subst hx
      rw [updateFirst, if_pos ha, List.map_cons, List.map_cons, hgx]
    · rw [List.find?_cons_of_neg _ ha] at hx
      rw [updateFirst, if_neg ha, List.map_cons, List.map_cons, ih hx]

theorem eraseUpdatedAt_applyServiceData (d : ServiceData) (t : Nat)
    (r : ServiceRec) (hrefl : reflects r d) :
    eraseUpdatedAt (applyServiceData d t r) = eraseUpdatedAt r := by
  obtain ⟨h1, h2, h3, h4, h5, h6, h7⟩ := hrefl
  simp [eraseUpdatedAt, applyServiceData, ← h2, ← h3, ← h4, ← h5, ← h6, ← h7]

/-- A sweep over definitions that the table already reflects changes
nothing but `updated_at`. -/
theorem foldl_upsert_fixpoint (t2 : Nat) (cat : List ServiceData)
    (svcs : List ServiceRec)
    (hnodup : (cat.map ServiceData.service_name).Nodup)
    (halign : ∀ d ∈ cat, ∃ r, svcs.find?
        (fun r => r.service_name == d.service_name) = some r ∧ reflects r d) :
    (cat.foldl (upsertService t2) svcs).map eraseUpdatedAt =
      svcs.map eraseUpdatedAt := by
  induction cat generalizing svcs with
  | nil => rfl
  | cons c rest ih =>
    rw [List.map_cons, List.nodup_cons] at hnodup
    obtain ⟨r, hr, hrefl⟩ := halign c (List.mem_cons_self _ _)
    have hupsert : upsertService t2 svcs c =
        updateFirst (fun x => x.service_name == c.service_name)
          (applyServiceData c t2) svcs := by
      unfold upsertService
      rw [hr]
    have hmap : (upsertService t2 svcs c).map eraseUpdatedAt =
        svcs.map eraseUpdatedAt := by
      rw [hupsert]
      exact updateFirst_map_of_first _ _ _ svcs r hr
        (eraseUpdatedAt_applyServiceData c t2 r hrefl)
    rw [List.foldl_cons, ih _ hnodup.2, hmap]
    intro d hd
    obtain ⟨r', hr', hrefl'⟩ := halign d (List.mem_cons_of_mem _ hd)
    refine ⟨r', ?_, hrefl'⟩
    rw [find?_upsertService_other t2 c svcs d.service_name
      (fun he => hnodup.1 (he ▸ List.mem_map.mpr ⟨d, hd, rfl⟩))]
    exact hr'

/-- C7: running `syncCatalog()` twice in a row on identical gateway data
(one definition per service name) leaves the Service table with the same
row count and the same field values row by row, with only `updated_at`
allowed to differ; both runs report the same processed count and the
second inserts nothing. -/
theorem catalog_sync_idempotent (cat : List ServiceData) (t1 t2 : Nat)
    (db : DB) (hnodup : (cat.map ServiceData.service_name).Nodup) :
    ((sync_catalog_services (.ok cat) t2
        (sync_catalog_services (.ok cat) t1 db).2).2.services.map
          eraseUpdatedAt =
      (sync_catalog_services (.ok cat) t1 db).2.services.map eraseUpdatedAt) ∧
    ((sync_catalog_services (.ok cat) t2
        (sync_catalog_services (.ok cat) t1 db).2).2.services.length =
      (sync_catalog_services (.ok cat) t1 db).2.services.length) ∧
    (sync_catalog_services (.ok cat) t2
        (sync_catalog_services (.ok cat) t1 db).2).1 =
      (sync_catalog_services (.ok cat) t1 db).1 := by
  have hmain : (cat.foldl (upsertService t2)
        (cat.foldl (upsertService t1) db.services)).map eraseUpdatedAt =
      (cat.foldl (upsertService t1) db.services).map eraseUpdatedAt :=
    foldl_upsert_fixpoint t2 cat _ hnodup
      (foldl_upsert_aligned t1 cat db.services hnodup)
  refine ⟨hmain, ?_, rfl⟩
  have := congrArg List.length hmain
  simpa using this

/-- C7 witness: a two-service catalog synced twice into an empty store. -/
theorem catalog_sync_idempotent_witness :
    ((sync_catalog_services (.ok [sampleServiceData, sampleServiceData2]) 4
        (sync_catalog_services (.ok [sampleServiceData, sampleServiceData2]) 3
          { services := [], apm_services := [], broken_traces := []
            sync_jobs := [] }).2).2.services.map eraseUpdatedAt =
      (sync_catalog_services (.ok [sampleServiceData, sampleServiceData2]) 3
        { services := [], apm_services := [], broken_traces := []
          sync_jobs := [] }).2.services.map eraseUpdatedAt) ∧
    ((sync_catalog_services (.ok [sampleServiceData, sampleServiceData2]) 4
        (sync_catalog_services (.ok [sampleServiceData, sampleServiceData2]) 3
          { services := [], apm_services := [], broken_traces := []
            sync_jobs := [] }).2).2.services.length =
      (sync_catalog_services (.ok [sampleServiceData, sampleServiceData2]) 3
        { services := [], apm_services := [], broken_traces := []
          sync_jobs := [] }).2.services.length) := by
  have hc := catalog_sync_idempotent [sampleServiceData, sampleServiceData2]
    3 4 { services := [], apm_services := [], broken_traces := []
          sync_jobs := [] } (by decide)
  exact ⟨hc.1, hc.2.1⟩

end ApmCoverage
